import Mathlib

/-!
Verification development for the video temporal-alignment pipeline
(frame sampler, descriptor extractor with PCA reduction, FFT-based
circular cross-correlation, peak selection and offset mapping).

The embedding follows the Python source (Task1.ipynb).  External
vision-library capabilities (video decoding, SIFT keypoint detection,
Farneback optical flow) are black boxes per the design: frames carry
the detector output, and the optical-flow histogram is an abstract
function parameter.  Floating-point arithmetic is embedded as exact
real arithmetic; NumPy's rfft/irfft pair is embedded as the full-length
discrete Fourier transform with the real part taken on inversion,
which is mathematically the same function on the conjugate-symmetric
spectra produced here.
-/

namespace CVProj

/-! ### Frame sampler (extract_frames) -/

/-- One step of the sampling while-loop: `n` frames remain to be read,
`count` is the original frame index of the next frame.  A frame is kept
iff `count % step == 0`; kept frames append `count` to the index list and
bump the saved-frame counter (the number of frame files written). -/
def sampleLoop (step : Nat) : Nat → Nat → List Nat × Nat
  | 0, _ => ([], 0)
  | n + 1, count =>
    let rest := sampleLoop step n (count + 1)
    if count % step = 0 then (count :: rest.1, rest.2 + 1) else rest

/-- The orig_indices list built by extract_frames when it decodes a video
with `total` frames at sampling step `step`. -/
def orig_indices (total step : Nat) : List Nat :=
  (sampleLoop step total 0).1

/-- The number of sampled (saved) frames written by extract_frames. -/
def savedFrames (total step : Nat) : Nat :=
  (sampleLoop step total 0).2

/-- The frame_mapping.json record: orig_fps, frame_step, orig_indices. -/
structure FrameMapping where
  origFps : ℚ
  frameStep : Nat
  origIndices : List Nat
deriving DecidableEq

/-- A cv.VideoCapture as far as the sampler observes it: whether it
opened, its reported FPS, and how many frames it will yield. -/
structure VideoCapture where
  opened : Bool
  fps : ℚ
  totalFrames : Nat

/-- Errors of the sampling stage (cannot open the video). -/
inductive SamplerError where
  | sourceUnavailable
deriving DecidableEq

/-- Python3 round: round half to even (banker's rounding). -/
def pyRound (q : ℚ) : ℤ :=
  let f := ⌊q⌋
  if q - f < 1/2 then f
  else if (1:ℚ)/2 < q - f then f + 1
  else if Even f then f else f + 1

/-- Outcome of one extract_frames call: the returned mapping triple, the
mapping file stored at the output location afterwards, and whether any
frame was decoded. -/
structure ExtractOutcome where
  result : FrameMapping
  stored : FrameMapping
  decoded : Bool
deriving DecidableEq

/-- extract_frames: if the mapping file already exists it is loaded and
returned with no decoding; otherwise the video is opened (error if it
cannot be), orig_fps falls back to target_fps when the capture reports a
falsy 0.0, frame_step = max(round(orig_fps / target_fps), 1), the frames
are decoded and sampled, and the mapping is written. -/
def extract_frames (existing : Option FrameMapping) (cap : VideoCapture)
    (targetFps : ℚ) : Except SamplerError ExtractOutcome :=
  match existing with
  | some m => .ok ⟨m, m, false⟩
  | none =>
    if !cap.opened then .error .sourceUnavailable
    else
      let origFps := if cap.fps = 0 then targetFps else cap.fps
      let step : Nat := (max (pyRound (origFps / targetFps)) 1).toNat
      let m : FrameMapping := ⟨origFps, step, orig_indices cap.totalFrames step⟩
      .ok ⟨m, m, true⟩

/-! ### Sampler lemmas -/

theorem sampleLoop_fst (step : Nat) :
    ∀ n c, (sampleLoop step n c).1
      = ((List.range n).map (c + ·)).filter (fun k => k % step == 0) := by
  intro n
  induction n with
  | zero => intro c; simp [sampleLoop]
  | succ n ih =>
    intro c
    rw [List.range_succ_eq_map]
    simp only [List.map_cons, List.map_map, List.filter_cons, sampleLoop]
    have hmap : (List.range n).map ((c + ·) ∘ Nat.succ)
        = (List.range n).map ((c + 1) + ·) := by
      apply List.map_congr_left
      intro a _
      simp only [Function.comp_apply]
      omega
    rw [hmap, ← ih (c + 1)]
    by_cases h : c % step = 0
    · simp [h]
    · simp [h]

theorem sampleLoop_snd (step : Nat) :
    ∀ n c, (sampleLoop step n c).2 = (sampleLoop step n c).1.length := by
  intro n
  induction n with
  | zero => intro c; simp [sampleLoop]
  | succ n ih =>
    intro c
    simp only [sampleLoop]
    by_cases h : c % step = 0
    · simp [h, ih]
    · simp [h, ih]

theorem orig_indices_eq_filter (total step : Nat) :
    orig_indices total step
      = (List.range total).filter (fun k => k % step == 0) := by
  rw [orig_indices, sampleLoop_fst]
  congr 1
  simp

theorem orig_indices_eq_map (step : Nat) (hstep : 0 < step) :
    ∀ total, orig_indices total step
      = (List.range ((total + step - 1) / step)).map (· * step) := by
  intro total
  induction total with
  | zero =>
    have h0 : (step - 1) / step = 0 := Nat.div_eq_of_lt (by omega)
    simp [orig_indices_eq_filter, h0]
  | succ n ih =>
    rw [orig_indices_eq_filter, List.range_succ, List.filter_append,
      ← orig_indices_eq_filter, ih]
    by_cases h : n % step = 0
    · have hk : step ∣ n := Nat.dvd_of_mod_eq_zero h
      obtain ⟨k, hk⟩ := hk
      have h1 : (n + step - 1) / step = k := by
        subst hk
        rw [show step * k + step - 1 = (step - 1) + k * step by ring_nf; omega]
        rw [Nat.add_mul_div_right _ _ hstep, Nat.div_eq_of_lt (by omega)]
        omega
      have h2 : (n + 1 + step - 1) / step = k + 1 := by
        rw [show n + 1 + step - 1 = n + step by omega]
        subst hk
        rw [show step * k + step = (0 + (k+1) * step) by ring]
        rw [Nat.add_mul_div_right _ _ hstep, Nat.zero_div]
        omega
      rw [h1, h2, List.range_succ, List.map_append]
      simp [h, hk, Nat.mul_comm]
    · have hnd : ¬ step ∣ n := by
        intro hd
        exact h (Nat.mod_eq_zero_of_dvd hd)
      have h1 : (n + 1 + step - 1) / step = (n + step - 1) / step := by
        have hn : n ≠ 0 := by
          intro h0; subst h0; exact h (Nat.zero_mod step)
        rw [show n + 1 + step - 1 = (n + step - 1) + 1 by omega]
        rw [Nat.succ_div]
        have : ¬ step ∣ (n + step - 1) + 1 := by
          rw [show n + step - 1 + 1 = n + step by omega]
          intro hd
          exact hnd ((Nat.dvd_add_right ⟨1, (Nat.mul_one step).symm⟩).mp
            (by rwa [Nat.add_comm] at hd))
        simp [this]
      rw [h1]
      simp [h]

/-- Claim C4: a frame at original index k is kept iff k mod sampling_step
is 0; the orig_indices sequence is strictly increasing, its i-th entry is
i * sampling_step, and the saved-frame counter equals its length. -/
theorem orig_indices_spec (total step : Nat) (hstep : 1 ≤ step) :
    (∀ k, k ∈ orig_indices total step ↔ k < total ∧ k % step = 0)
    ∧ (orig_indices total step).Pairwise (· < ·)
    ∧ (∀ i, ∀ hi : i < (orig_indices total step).length,
        (orig_indices total step).get ⟨i, hi⟩ = i * step)
    ∧ savedFrames total step = (orig_indices total step).length := by
  refine ⟨?_, ?_, ?_, ?_⟩
  · intro k
    rw [orig_indices_eq_filter]
    simp [List.mem_filter, List.mem_range, and_comm]
  · rw [orig_indices_eq_filter]
    exact (List.pairwise_lt_range total).filter _
  · intro i
    rw [orig_indices_eq_map step hstep total]
    intro hi
    simp [List.getElem_map, List.getElem_range]
  · exact sampleLoop_snd step total 0

/-- Witness for C4 at total = 5, step = 2. -/
theorem orig_indices_spec_witness :
    (∀ k, k ∈ orig_indices 5 2 ↔ k < 5 ∧ k % 2 = 0)
    ∧ (orig_indices 5 2).Pairwise (· < ·)
    ∧ (∀ i, ∀ hi : i < (orig_indices 5 2).length,
        (orig_indices 5 2).get ⟨i, hi⟩ = i * 2)
    ∧ savedFrames 5 2 = (orig_indices 5 2).length :=
  orig_indices_spec 5 2 (by decide)

/-- Claim C5: if a mapping artifact already exists at the output location
the sampler returns it verbatim and decodes nothing; hence a second
invocation on the state left by a first invocation returns the same
mapping with no decoding. -/
theorem extract_frames_idempotent (cap : VideoCapture) (targetFps : ℚ)
    (m : FrameMapping) (out1 : ExtractOutcome) :
    extract_frames (some m) cap targetFps = .ok ⟨m, m, false⟩
    ∧ (extract_frames none cap targetFps = .ok out1 →
        out1.stored = out1.result
        ∧ extract_frames (some out1.stored) cap targetFps
            = .ok ⟨out1.result, out1.stored, false⟩) := by
  constructor
  · rfl
  · intro h
    rw [extract_frames] at h
    by_cases hop : cap.opened
    · simp only [hop] at h
      simp only [Bool.not_true, Bool.false_eq_true, if_false] at h
      rcases h with h
      have : out1 = ⟨⟨_, _, _⟩, ⟨_, _, _⟩, true⟩ := (Except.ok.injEq _ _).mp h.symm
      subst this
      exact ⟨rfl, rfl⟩
    · simp only [Bool.not_eq_true] at hop
      simp [hop] at h

/-- Witness for C5: a 3-frame capture whose reported FPS is the falsy 0.0,
sampled at target 15 fps; the re-invocation hypothesis is discharged by
evaluating the first invocation. -/
theorem extract_frames_idempotent_witness :
    (⟨⟨15, 1, [0, 1, 2]⟩, ⟨15, 1, [0, 1, 2]⟩, true⟩ : ExtractOutcome).stored
        = (⟨⟨15, 1, [0, 1, 2]⟩, ⟨15, 1, [0, 1, 2]⟩, true⟩ : ExtractOutcome).result
    ∧ extract_frames
        (some (⟨⟨15, 1, [0, 1, 2]⟩, ⟨15, 1, [0, 1, 2]⟩, true⟩ : ExtractOutcome).stored)
        ⟨true, 0, 3⟩ 15
        = .ok ⟨(⟨⟨15, 1, [0, 1, 2]⟩, ⟨15, 1, [0, 1, 2]⟩, true⟩ : ExtractOutcome).result,
            (⟨⟨15, 1, [0, 1, 2]⟩, ⟨15, 1, [0, 1, 2]⟩, true⟩ : ExtractOutcome).stored, false⟩ :=
  (extract_frames_idempotent ⟨true, 0, 3⟩ 15 ⟨1, 1, []⟩
      ⟨⟨15, 1, [0, 1, 2]⟩, ⟨15, 1, [0, 1, 2]⟩, true⟩).2
    (by norm_num [extract_frames, pyRound, orig_indices, sampleLoop])

/-! ### Descriptor extractor (load_frame_descriptors) -/

/-- A sampled frame as the extractor observes it: the output of the
external SIFT detectAndCompute (none when no keypoints are found, else
the list of raw 128-dimensional keypoint descriptors, kept rational so
that model bookkeeping is decidable) and a handle to the grayscale
pixels consumed by the black-box optical flow. -/
structure Frame where
  des : Option (List (List ℚ))
  img : Nat
deriving DecidableEq

/-- A fitted sklearn PCA(n_components, whiten=True) model, identified by
its configuration and the stacked descriptor pool it was fitted on (the
basis, mean and whitening scale are functions of that pool). -/
structure PCAModel where
  nComponents : Nat
  whiten : Bool
  fittedOn : List (List ℚ)
deriving DecidableEq

/-- Errors of the descriptor-extraction stage.  insufficientData is the
np.vstack failure on an empty pool (the spec's InsufficientData);
invalidComponents is sklearn's rejection of n_components larger than
min(n_samples, n_features); emptyFrames is np.vstack on an empty list of
frame vectors at the end. -/
inductive DescError where
  | insufficientData
  | invalidComponents
  | emptyFrames
deriving DecidableEq

/-- The first pass of load_frame_descriptors when fit_pca=True: collect
each frame's detector output (skipping frames where it is None), stack
the pools (np.vstack, which fails on an empty list — the `if key_descs:`
guard is commented out in the source), and fit PCA(n_components=pca_dim,
whiten=True), which fails when pca_dim exceeds the number of stacked
samples or the descriptor width. -/
def fitPCAPass (frames : List Frame) (pcaDim : Nat) : Except DescError PCAModel :=
  let keyDescs := frames.filterMap Frame.des
  if keyDescs.isEmpty then .error .insufficientData
  else
    let stacked := keyDescs.flatten
    if stacked.length < pcaDim ∨ (stacked.headD []).length < pcaDim then
      .error .invalidComponents
    else .ok ⟨pcaDim, true, stacked⟩

/-- L2 norm of a vector, np.linalg.norm. -/
noncomputable def l2norm (v : List ℝ) : ℝ :=
  Real.sqrt ((v.map (fun x => x ^ 2)).sum)

/-- Per-frame normalization: divide by the L2 norm only when it exceeds
1e-6, otherwise leave the vector as computed. -/
noncomputable def normalizeVec (v : List ℝ) : List ℝ :=
  if 1e-6 < l2norm v then v.map (fun x => x / l2norm v) else v

/-- One frame vector: concatenate the appearance vector and the motion
histogram, then normalize. -/
noncomputable def mkFrameVec (siftVec hofVec : List ℝ) : List ℝ :=
  normalizeVec (siftVec ++ hofVec)

/-- Componentwise mean of the PCA-transformed keypoint descriptors of a
frame, np.mean(des_pca, axis=0). -/
noncomputable def vecMean (rows : List (List ℝ)) : List ℝ :=
  match rows with
  | [] => []
  | r :: rs => (rs.foldl (List.zipWith (· + ·)) r).map (fun x => x / (rs.length + 1))

/-- The second pass of load_frame_descriptors: per frame, the appearance
vector is the mean of the model-transformed keypoint descriptors when
both the detector output and a model are present (zeros of length
pca_dim otherwise), the motion vector is the flow histogram against the
previous grayscale frame (zeros of length hof_bins for the first frame),
and the frame vector is their normalized concatenation.  `tf` is the
pure PCA transform and `hofFn` the flow histogram, both black boxes
here. -/
noncomputable def secondPass (tf : PCAModel → List ℚ → List ℝ)
    (hofFn : Nat → Nat → List ℝ) (pcaDim hofBins : Nat)
    (model : Option PCAModel) : Option Nat → List Frame → List (List ℝ)
  | _, [] => []
  | prevGray, fr :: rest =>
    let siftVec : List ℝ :=
      match fr.des, model with
      | some des, some m => vecMean (des.map (tf m))
      | some _, none => List.replicate pcaDim 0
      | none, _ => List.replicate pcaDim 0
    let hofVec : List ℝ :=
      match prevGray with
      | some pg => hofFn pg fr.img
      | none => List.replicate hofBins 0
    mkFrameVec siftVec hofVec
      :: secondPass tf hofFn pcaDim hofBins model (some fr.img) rest

/-- load_frame_descriptors: optionally refit the PCA model (fit_pca),
then extract one frame vector per frame with the model in scope, and
stack them (np.vstack, failing on an empty frame list).  Returns the
frame vectors together with the model variable as rebound inside the
function. -/
noncomputable def load_frame_descriptors (tf : PCAModel → List ℚ → List ℝ)
    (hofFn : Nat → Nat → List ℝ) (frames : List Frame)
    (pcaModel : Option PCAModel) (pcaDim : Nat) (fitPca : Bool)
    (hofBins : Nat) :
    Except DescError (List (List ℝ) × Option PCAModel) :=
  (if fitPca then (fitPCAPass frames pcaDim).map some else .ok pcaModel).bind
    fun model =>
      let allDescs := secondPass tf hofFn pcaDim hofBins model none frames
      if allDescs.isEmpty then .error .emptyFrames
      else .ok (allDescs, model)

/-! ### Descriptor lemmas -/

theorem l2norm_nonneg_sum (v : List ℝ) : 0 ≤ (v.map (fun x => x ^ 2)).sum := by
  apply List.sum_nonneg
  intro x hx
  simp only [List.mem_map] at hx
  obtain ⟨y, _, rfl⟩ := hx
  positivity

theorem l2norm_normalize_eq_one (v : List ℝ) (h : (1e-6 : ℝ) < l2norm v) :
    l2norm (normalizeVec v) = 1 := by
  have hS := l2norm_nonneg_sum v
  have hcsq : l2norm v ^ 2 = (v.map (fun x => x ^ 2)).sum := Real.sq_sqrt hS
  have hc : 0 < l2norm v := lt_trans (by norm_num) h
  rw [normalizeVec, if_pos h, l2norm, List.map_map]
  have hfun : ((fun x => x ^ 2) ∘ fun x => x / l2norm v)
      = fun x => x ^ 2 * (l2norm v ^ 2)⁻¹ := by
    funext x
    simp only [Function.comp_apply, div_pow]
    ring
  rw [hfun, List.sum_map_mul_right, ← hcsq,
    mul_inv_cancel₀ (by positivity), Real.sqrt_one]

/-- Claim C8: every frame vector produced by the extraction pass is the
normalization of the concatenated appearance and motion components; its
L2 norm is 1 (well within the 1e-5 tolerance) whenever the raw norm
exceeds 1e-6, and the raw vector is returned untouched otherwise. -/
theorem frame_descriptors_unit_norm (tf : PCAModel → List ℚ → List ℝ)
    (hofFn : Nat → Nat → List ℝ) (pcaDim hofBins : Nat)
    (model : Option PCAModel) :
    ∀ (prev : Option Nat) (frames : List Frame) (v : List ℝ),
      v ∈ secondPass tf hofFn pcaDim hofBins model prev frames →
      ∃ s h, v = mkFrameVec s h
        ∧ ((1e-6 : ℝ) < l2norm (s ++ h) → |l2norm v - 1| ≤ 1e-5)
        ∧ (l2norm (s ++ h) ≤ 1e-6 → v = s ++ h) := by
  intro prev frames
  induction frames generalizing prev with
  | nil => intro v hv; simp [secondPass] at hv
  | cons fr rest ih =>
    intro v hv
    simp only [secondPass] at hv
    rcases List.mem_cons.mp hv with hv | hv
    · subst hv
      refine ⟨_, _, rfl, ?_, ?_⟩
      · intro hgt
        rw [mkFrameVec, l2norm_normalize_eq_one _ hgt]
        norm_num
      · intro hle
        rw [mkFrameVec, normalizeVec, if_neg (not_lt.mpr hle)]
    · exact ih (some fr.img) v hv

/-- Witness for C8: a single frame with no keypoints and no predecessor,
whose raw frame vector is all-zero and is left unnormalized. -/
theorem frame_descriptors_unit_norm_witness :
    ∃ s h, mkFrameVec (List.replicate 1 (0:ℝ)) (List.replicate 1 0) = mkFrameVec s h
      ∧ ((1e-6 : ℝ) < l2norm (s ++ h) →
          |l2norm (mkFrameVec (List.replicate 1 (0:ℝ)) (List.replicate 1 0)) - 1| ≤ 1e-5)
      ∧ (l2norm (s ++ h) ≤ 1e-6 →
          mkFrameVec (List.replicate 1 (0:ℝ)) (List.replicate 1 0) = s ++ h) :=
  frame_descriptors_unit_norm (fun _ _ => []) (fun _ _ => []) 1 1 none none
    [⟨none, 0⟩] (mkFrameVec (List.replicate 1 0) (List.replicate 1 0))
    (by simp only [secondPass]; exact List.mem_cons_self _ _)

/-- Claim C9 (amended): with every detected descriptor list non-empty (the
detector returns None rather than an empty array when nothing is found),
the PCA fit pass fails with InsufficientData exactly when the pooled
descriptor collection is empty; a non-empty pool yields a model of output
dimension pca_dim only when the pool has at least pca_dim descriptors of
width at least pca_dim, and otherwise fails with the component-count
validation error, not InsufficientData. -/
theorem fitPCAPass_spec (frames : List Frame) (pcaDim : Nat)
    (hne : ∀ d ∈ frames.filterMap Frame.des, d ≠ []) :
    ((frames.filterMap Frame.des).flatten = [] →
        fitPCAPass frames pcaDim = .error .insufficientData)
    ∧ ((frames.filterMap Frame.des).flatten ≠ [] →
        pcaDim ≤ ((frames.filterMap Frame.des).flatten).length →
        pcaDim ≤ (((frames.filterMap Frame.des).flatten).headD []).length →
        fitPCAPass frames pcaDim
          = .ok ⟨pcaDim, true, (frames.filterMap Frame.des).flatten⟩)
    ∧ ((frames.filterMap Frame.des).flatten ≠ [] →
        (((frames.filterMap Frame.des).flatten).length < pcaDim
          ∨ (((frames.filterMap Frame.des).flatten).headD []).length < pcaDim) →
        fitPCAPass frames pcaDim = .error .invalidComponents) := by
  have hiff : (frames.filterMap Frame.des).flatten = []
      ↔ (frames.filterMap Frame.des) = [] := by
    constructor
    · intro hfl
      cases hkd : frames.filterMap Frame.des with
      | nil => rfl
      | cons d ds =>
        exfalso
        rw [hkd] at hfl
        exact hne d (by rw [hkd]; exact List.mem_cons_self _ _)
          ((List.flatten_eq_nil_iff.mp hfl) d (List.mem_cons_self _ _))
    · intro h; rw [h]; rfl
  refine ⟨?_, ?_, ?_⟩
  · intro hfl
    rw [fitPCAPass, if_pos (List.isEmpty_iff.mpr (hiff.mp hfl))]
  · intro hfl hlen hwid
    rw [fitPCAPass,
      if_neg (by rw [List.isEmpty_iff]; exact fun hc => hfl (hiff.mpr hc)),
      if_neg (by push_neg; omega)]
  · intro hfl hlt
    rw [fitPCAPass,
      if_neg (by rw [List.isEmpty_iff]; exact fun hc => hfl (hiff.mpr hc)),
      if_pos hlt]

/-- Witness for C9's amended claim: no frames at all, so the pool is empty
and the fit fails with InsufficientData. -/
theorem fitPCAPass_spec_witness :
    fitPCAPass [] 64 = .error .insufficientData :=
  (fitPCAPass_spec [] 64 (by intro d hd; simp at hd)).1 rfl

/-- Counterexample for C9 as stated: a non-empty pool (one descriptor)
does not produce a projection model; the fit fails with the sklearn
component-count validation error. -/
theorem fitPCAPass_nonempty_pool_fails :
    fitPCAPass [⟨some [[1]], 0⟩] 64 = .error .invalidComponents := by
  rfl

/-- The keypoint-descriptor pool of the query video in the C1 scenario. -/
def queryPoolC1 : List (List ℚ) := List.replicate 64 (List.replicate 64 1)

/-- The keypoint-descriptor pool of the reference video in the C1
scenario, different from the query pool. -/
def refPoolC1 : List (List ℚ) := List.replicate 64 (List.replicate 64 0)

/-- Claim C1 is violated by the code: the main loop passes the
query-fitted model to the reference call but sets fit_pca=True, so
load_frame_descriptors rebinds the model to a fresh PCA fitted on the
reference pool and uses and returns that model, which differs from the
query-fitted model that the claim says is applied frozen. -/
theorem load_frame_descriptors_refits_on_reference
    (tf : PCAModel → List ℚ → List ℝ) (hofFn : Nat → Nat → List ℝ) :
    (load_frame_descriptors tf hofFn [⟨some refPoolC1, 0⟩]
        (some ⟨64, true, queryPoolC1⟩) 64 true 8).map Prod.snd
      = .ok (some ⟨64, true, refPoolC1⟩)
    ∧ (⟨64, true, refPoolC1⟩ : PCAModel) ≠ ⟨64, true, queryPoolC1⟩ := by
  constructor
  · have hfit : fitPCAPass [⟨some refPoolC1, 0⟩] 64 = .ok ⟨64, true, refPoolC1⟩ := by
      rfl
    rw [load_frame_descriptors, if_pos rfl, hfit]
    simp [Except.map, Except.bind, secondPass]
  · intro hc
    have := congrArg PCAModel.fittedOn hc
    revert this
    decide

/-! ### Correlation engine (compute_cte_correlation)

np.fft.rfft of a real column x of length N is the half-spectrum of the
discrete Fourier transform X f = sum_t x t * exp(-2 pi i f t / N); the
code's per-bin operations and np.fft.irfft(_, n=N) reconstruct the real
inverse of the full conjugate-symmetric spectrum, so both are embedded
as the full-length transform, with exp(-i theta) written as the complex
conjugate of exp(i theta) and the real part taken on inversion. -/

/-- The unit-modulus twiddle factor exp(2 pi i k / N). -/
noncomputable def cexp (N k : Nat) : ℂ :=
  Complex.exp (2 * Real.pi * Complex.I * k / N)

/-- Column f of the length-N Fourier transform of the time-padded matrix
x along the time axis, for descriptor dimension d. -/
noncomputable def dftCol (N : Nat) (x : Nat → Nat → ℝ) (f d : Nat) : ℂ :=
  ∑ t ∈ Finset.range N, (x t d : ℂ) * starRingEnd ℂ (cexp N (f * t))

/-- The cross term: per frequency bin, the inner product of the
conjugated query spectrum with the reference spectrum summed over the D
descriptor dimensions. -/
noncomputable def cteNum (N D : Nat) (Qp Rp : Nat → Nat → ℝ) (f : Nat) : ℂ :=
  ∑ d ∈ Finset.range D, starRingEnd ℂ (dftCol N Qp f d) * dftCol N Rp f d

/-- The normalization term: per frequency bin, the squared magnitudes of
the query spectrum summed over the D descriptor dimensions. -/
noncomputable def cteDen (N D : Nat) (Qp : Nat → Nat → ℝ) (f : Nat) : ℝ :=
  ∑ d ∈ Finset.range D, Complex.normSq (dftCol N Qp f d)

/-- Entry t of the inverse transform of the regularized ratio: the score
at circular offset t. -/
noncomputable def cteScore (N D : Nat) (Qp Rp : Nat → Nat → ℝ) (lam : ℝ)
    (t : Nat) : ℝ :=
  ((∑ f ∈ Finset.range N,
      cteNum N D Qp Rp f / ((cteDen N D Qp f : ℂ) + (lam : ℂ)) * cexp N (f * t))
    / (N : ℂ)).re

/-- The score sequence of length N. -/
noncomputable def cteScores (N D : Nat) (Qp Rp : Nat → Nat → ℝ) (lam : ℝ) :
    List ℝ :=
  (List.range N).map (cteScore N D Qp Rp lam)

/-- Zero-padding along the time axis: Q = np.zeros((N, D)); Q[:T] = m. -/
def padMatrix (T : Nat) (m : Nat → Nat → ℝ) : Nat → Nat → ℝ :=
  fun t d => if t < T then m t d else 0

/-- NumPy broadcasting of the assignment R[:Tr] = ref: a reference of
width 1 is replicated across the D columns. -/
def broadcastRef (Dr : Nat) (r : Nat → Nat → ℝ) : Nat → Nat → ℝ :=
  fun t d => if Dr = 1 then r t 0 else r t d

/-- Failures of compute_cte_correlation: dimensionMismatch is the NumPy
broadcast failure of R[:Tr] = ref_desc when the reference width is
neither D nor 1; emptyInput is the int(np.ceil(np.log2(0))) overflow
when both frame counts are zero. -/
inductive CorrError where
  | dimensionMismatch
  | emptyInput
deriving DecidableEq

/-- compute_cte_correlation on a query of shape (Tq, D) and a reference
of shape (Tr, Dr): N = 1 << ceil(log2(max Tq Tr)) (the smallest power of
two at least max Tq Tr), both matrices zero-padded to N rows, spectra
taken per column, cross term divided by the regularized normalization
per bin, and the inverse transform returned as the score list. -/
noncomputable def compute_cte_correlation (Tq D Tr Dr : Nat)
    (q r : Nat → Nat → ℝ) (lam : ℝ) : Except CorrError (List ℝ) :=
  if max Tq Tr = 0 then .error .emptyInput
  else if Dr = D ∨ Dr = 1 then
    .ok (cteScores (2 ^ Nat.clog 2 (max Tq Tr)) D
      (padMatrix Tq q) (padMatrix Tr (broadcastRef Dr r)) lam)
  else .error .dimensionMismatch

/-! ### Peak selection and offset mapping (main loop) -/

/-- Inner loop of np.argmax: first index of the maximum. -/
noncomputable def argmaxAux : List ℝ → Nat → Nat → ℝ → Nat
  | [], _, bi, _ => bi
  | x :: xs, i, bi, bv =>
    if bv < x then argmaxAux xs (i + 1) i x else argmaxAux xs (i + 1) bi bv

/-- np.argmax on a list of scores (0 on the empty list, which NumPy
rejects; scores are never empty here). -/
noncomputable def argmaxIdx : List ℝ → Nat
  | [] => 0
  | x :: xs => argmaxAux xs 1 0 x

/-- The wrap-around correction of the main loop: subtract N when the raw
argmax exceeds N // 2. -/
def wrapCorrect (N raw : ℤ) : ℤ :=
  if N / 2 < raw then raw - N else raw

/-- The clamp of the main loop: only forward shifts are allowed. -/
def clampOffset (delta : ℤ) : ℤ := max delta 0

/-- The main loop's peak selection: N = scores.shape[0], delta =
argmax(scores), wrap-around correction, then clamp to non-negative. -/
noncomputable def mainLoopOffset (scores : List ℝ) : ℤ :=
  let N : ℤ := scores.length
  let delta : ℤ := argmaxIdx scores
  let delta := if N / 2 < delta then delta - N else delta
  max delta 0

/-- The main loop's mapping back to an original reference frame:
orig_frame = r_map[delta], an out-of-range index being a Python
IndexError (none). -/
noncomputable def mainLoopOrigFrame (scores : List ℝ) (rMap : List Nat) :
    Option Nat :=
  rMap.get? (mainLoopOffset scores).toNat

/-! ### Correlation engine lemmas -/

/-- Counterexample for C2 as stated: a query of width 2 and a reference
of width 1 have differing descriptor widths, yet the computation does
not fail — NumPy broadcasts the width-1 reference across the columns. -/
theorem compute_cte_width_one_broadcast_no_error :
    compute_cte_correlation 1 2 1 1 (fun _ _ => 1) (fun _ _ => 1) (1 / 1000)
      ≠ .error .dimensionMismatch := by
  rw [compute_cte_correlation, if_neg (by decide), if_pos (by decide)]
  exact fun h => Except.noConfusion h

/-- Claim C2 (amended): for non-empty inputs the correlation computation
fails with DimensionMismatch exactly when the reference width differs
from both the query width and 1; with equal widths it returns a score
sequence. -/
theorem compute_cte_dimension_check (Tq D Tr Dr : Nat)
    (q r : Nat → Nat → ℝ) (lam : ℝ) (hpos : 0 < max Tq Tr) :
    (compute_cte_correlation Tq D Tr Dr q r lam = .error .dimensionMismatch
      ↔ (Dr ≠ D ∧ Dr ≠ 1))
    ∧ (Dr = D →
        ∃ s, compute_cte_correlation Tq D Tr Dr q r lam = .ok s) := by
  rw [compute_cte_correlation, if_neg (Nat.pos_iff_ne_zero.mp hpos)]
  by_cases hb : Dr = D ∨ Dr = 1
  · rw [if_pos hb]
    refine ⟨⟨fun h => Except.noConfusion h, ?_⟩, fun _ => ⟨_, rfl⟩⟩
    rintro ⟨h1, h2⟩
    rcases hb with hb | hb
    · exact absurd hb h1
    · exact absurd hb h2
  · rw [if_neg hb]
    push_neg at hb
    exact ⟨⟨fun _ => hb, fun _ => rfl⟩, fun hD => absurd hD hb.1⟩

/-- Witness for C2's amended claim at equal widths 1: the computation
returns a score sequence. -/
theorem compute_cte_dimension_check_witness :
    ∃ s, compute_cte_correlation 1 1 1 1 (fun _ _ => 0) (fun _ _ => 0) 1
      = .ok s :=
  (compute_cte_dimension_check 1 1 1 1 (fun _ _ => 0) (fun _ _ => 0) 1
    (by decide)).2 rfl

/-- Claim C7: for non-empty matrices of equal width the computation
succeeds with transform length N = 2 ^ clog2(max Tq Tr) — a power of two
at least max(Tq, Tr) and no larger than any other such power of two —
the score sequence has length N, and both matrices are zero-padded on
the time axis (rows below the frame count kept, rows above zero). -/
theorem compute_cte_padding_and_length (Tq D Tr : Nat)
    (q r : Nat → Nat → ℝ) (lam : ℝ) (hq : 0 < Tq) (hr : 0 < Tr) :
    compute_cte_correlation Tq D Tr D q r lam
        = .ok (cteScores (2 ^ Nat.clog 2 (max Tq Tr)) D (padMatrix Tq q)
            (padMatrix Tr (broadcastRef D r)) lam)
    ∧ (cteScores (2 ^ Nat.clog 2 (max Tq Tr)) D (padMatrix Tq q)
        (padMatrix Tr (broadcastRef D r)) lam).length
          = 2 ^ Nat.clog 2 (max Tq Tr)
    ∧ max Tq Tr ≤ 2 ^ Nat.clog 2 (max Tq Tr)
    ∧ (∀ M, (∃ k, M = 2 ^ k) → max Tq Tr ≤ M →
        2 ^ Nat.clog 2 (max Tq Tr) ≤ M)
    ∧ (∀ t d, t < Tq → padMatrix Tq q t d = q t d)
    ∧ (∀ t d, Tq ≤ t → padMatrix Tq q t d = 0)
    ∧ (∀ t d, t < Tr → d < D →
        padMatrix Tr (broadcastRef D r) t d = r t d)
    ∧ (∀ t d, Tr ≤ t → padMatrix Tr (broadcastRef D r) t d = 0) := by
  refine ⟨?_, ?_, ?_, ?_, ?_, ?_, ?_, ?_⟩
  · rw [compute_cte_correlation, if_neg (by omega), if_pos (Or.inl rfl)]
  · simp [cteScores]
  · exact Nat.le_pow_clog one_lt_two _
  · rintro M ⟨k, rfl⟩ hM
    exact Nat.pow_le_pow_right (by omega)
      ((Nat.le_pow_iff_clog_le one_lt_two).mp hM)
  · intro t d ht
    simp [padMatrix, ht]
  · intro t d ht
    simp [padMatrix, Nat.not_lt.mpr ht]
  · intro t d ht hd
    by_cases hD : D = 1
    · have : d = 0 := by omega
      subst this
      simp [padMatrix, broadcastRef, ht, hD]
    · simp [padMatrix, broadcastRef, ht, hD]
  · intro t d ht
    simp [padMatrix, Nat.not_lt.mpr ht]

/-- Witness for C7 at Tq = 2, Tr = 3, D = 1. -/
theorem compute_cte_padding_and_length_witness :
    compute_cte_correlation 2 1 3 1 (fun _ _ => 0) (fun _ _ => 0) 1
        = .ok (cteScores (2 ^ Nat.clog 2 (max 2 3)) 1 (padMatrix 2 (fun _ _ => 0))
            (padMatrix 3 (broadcastRef 1 (fun _ _ => 0))) 1)
    ∧ (cteScores (2 ^ Nat.clog 2 (max 2 3)) 1 (padMatrix 2 (fun _ _ => 0))
        (padMatrix 3 (broadcastRef 1 (fun _ _ => 0))) 1).length
          = 2 ^ Nat.clog 2 (max 2 3)
    ∧ max 2 3 ≤ 2 ^ Nat.clog 2 (max 2 3)
    ∧ (∀ M, (∃ k, M = 2 ^ k) → max 2 3 ≤ M → 2 ^ Nat.clog 2 (max 2 3) ≤ M)
    ∧ (∀ t d, t < 2 → padMatrix 2 (fun _ _ => (0:ℝ)) t d = 0)
    ∧ (∀ t d, 2 ≤ t → padMatrix 2 (fun _ _ => (0:ℝ)) t d = 0)
    ∧ (∀ t d, t < 3 → d < 1 →
        padMatrix 3 (broadcastRef 1 (fun _ _ => (0:ℝ))) t d = 0)
    ∧ (∀ t d, 3 ≤ t → padMatrix 3 (broadcastRef 1 (fun _ _ => (0:ℝ))) t d = 0) :=
  compute_cte_padding_and_length 2 1 3 (fun _ _ => 0) (fun _ _ => 0) 1
    (by decide) (by decide)

/-- Claim C3: the main loop's offset is the argmax, wrap-corrected by
subtracting N when it exceeds N // 2, then clamped to be non-negative
before any further use; in particular a raw argmax of N - 1 with
N = 1024 becomes -1 before the clamp. -/
theorem main_loop_offset_spec (scores : List ℝ) (_hne : scores ≠ []) :
    mainLoopOffset scores
        = clampOffset (wrapCorrect scores.length (argmaxIdx scores))
    ∧ 0 ≤ mainLoopOffset scores
    ∧ ((scores.length : ℤ) / 2 < (argmaxIdx scores : ℤ) →
        wrapCorrect scores.length (argmaxIdx scores)
          = (argmaxIdx scores : ℤ) - scores.length)
    ∧ wrapCorrect 1024 1023 = -1 ∧ clampOffset (-1) = 0 := by
  refine ⟨rfl, le_max_right _ _, ?_, by decide, by decide⟩
  intro h
  rw [wrapCorrect, if_pos h]

/-- Witness for C3 on the singleton score list. -/
theorem main_loop_offset_spec_witness :
    mainLoopOffset [(0:ℝ)]
        = clampOffset (wrapCorrect (List.length [(0:ℝ)]) (argmaxIdx [(0:ℝ)]))
    ∧ 0 ≤ mainLoopOffset [(0:ℝ)]
    ∧ ((List.length [(0:ℝ)] : ℤ) / 2 < (argmaxIdx [(0:ℝ)] : ℤ) →
        wrapCorrect (List.length [(0:ℝ)]) (argmaxIdx [(0:ℝ)])
          = (argmaxIdx [(0:ℝ)] : ℤ) - List.length [(0:ℝ)])
    ∧ wrapCorrect 1024 1023 = -1 ∧ clampOffset (-1) = 0 :=
  main_loop_offset_spec [(0:ℝ)] (by simp)

/-! ### The autocorrelation peak (towards C6) -/

theorem cexp_zero (N : Nat) : cexp N 0 = 1 := by
  simp [cexp]

theorem cexp_abs_one (N k : Nat) : Complex.abs (cexp N k) = 1 := by
  have h : cexp N k = Complex.exp ((2 * Real.pi * k / N : ℝ) * Complex.I) := by
    rw [cexp]
    congr 1
    push_cast
    ring
  rw [h, Complex.abs_exp_ofReal_mul_I]

theorem cexp_re_le_one (N k : Nat) : (cexp N k).re ≤ 1 :=
  le_trans (Complex.re_le_abs _) (le_of_eq (cexp_abs_one N k))

theorem argmaxAux_of_le (xs : List ℝ) :
    ∀ (i bi : Nat) (bv : ℝ), (∀ y ∈ xs, y ≤ bv) → argmaxAux xs i bi bv = bi := by
  induction xs with
  | nil => intro i bi bv _; rfl
  | cons x xs ih =>
    intro i bi bv h
    rw [argmaxAux, if_neg (not_lt.mpr (h x (List.mem_cons_self _ _)))]
    exact ih _ _ _ fun y hy => h y (List.mem_cons_of_mem _ hy)

/-- Claim C6: with the query and reference equal (and equal frame counts
T), the correlation succeeds and its score sequence attains its maximum
at offset 0; np.argmax therefore returns 0. -/
theorem autocorrelation_peak_at_zero (T D : Nat) (m : Nat → Nat → ℝ)
    (lam : ℝ) (hT : 0 < T) (hlam : 0 < lam) :
    ∃ s, compute_cte_correlation T D T D m m lam = .ok s
      ∧ s ≠ []
      ∧ (∀ x ∈ s, x ≤ s.headD 0)
      ∧ argmaxIdx s = 0 := by
  set N := 2 ^ Nat.clog 2 (max T T) with hN
  set Qp := padMatrix T m with hQp
  set Rp := padMatrix T (broadcastRef D m) with hRp
  have hok : compute_cte_correlation T D T D m m lam
      = .ok (cteScores N D Qp Rp lam) := by
    rw [compute_cte_correlation, if_neg (by omega), if_pos (Or.inl rfl)]
  have hcol : ∀ f d, d < D → dftCol N Rp f d = dftCol N Qp f d := by
    intro f d hd
    unfold dftCol
    apply Finset.sum_congr rfl
    intro t _
    have hone : Rp t d = Qp t d := by
      by_cases hD : D = 1
      · have hd0 : d = 0 := by omega
        subst hd0
        simp [hRp, hQp, padMatrix, broadcastRef, hD]
      · simp [hRp, hQp, padMatrix, broadcastRef, hD]
    rw [hone]
  have hnum : ∀ f, cteNum N D Qp Rp f = ((cteDen N D Qp f : ℝ) : ℂ) := by
    intro f
    rw [cteNum, cteDen]
    rw [show (((∑ d ∈ Finset.range D, Complex.normSq (dftCol N Qp f d) : ℝ)) : ℂ)
        = ∑ d ∈ Finset.range D,
            ((Complex.normSq (dftCol N Qp f d) : ℝ) : ℂ) from by push_cast; rfl]
    apply Finset.sum_congr rfl
    intro d hd
    rw [hcol f d (Finset.mem_range.mp hd), mul_comm, Complex.mul_conj]
  set ρ : Nat → ℝ := fun f => cteDen N D Qp f / (cteDen N D Qp f + lam) with hρ
  have hρ0 : ∀ f, 0 ≤ ρ f := by
    intro f
    have hden : 0 ≤ cteDen N D Qp f :=
      Finset.sum_nonneg fun d _ => Complex.normSq_nonneg _
    exact div_nonneg hden (by linarith)
  have hscore : ∀ t, cteScore N D Qp Rp lam t
      = (∑ f ∈ Finset.range N, ρ f * (cexp N (f * t)).re) / N := by
    intro t
    rw [cteScore]
    have h1 : ∀ f, cteNum N D Qp Rp f
          / ((cteDen N D Qp f : ℂ) + (lam : ℂ)) * cexp N (f * t)
        = ((ρ f : ℝ) : ℂ) * cexp N (f * t) := by
      intro f
      rw [hnum f]
      congr 1
      rw [show ((cteDen N D Qp f : ℝ) : ℂ) + ((lam : ℝ) : ℂ)
          = ((cteDen N D Qp f + lam : ℝ) : ℂ) from by push_cast; rfl]
      rw [← Complex.ofReal_div]
    rw [Finset.sum_congr rfl fun f _ => h1 f]
    rw [Complex.div_natCast_re, Complex.re_sum]
    congr 1
    apply Finset.sum_congr rfl
    intro f _
    rw [Complex.re_ofReal_mul]
  have hsum0 : (∑ f ∈ Finset.range N, ρ f * (cexp N (f * 0)).re)
      = ∑ f ∈ Finset.range N, ρ f := by
    apply Finset.sum_congr rfl
    intro f _
    rw [Nat.mul_zero, cexp_zero, Complex.one_re, mul_one]
  have hge : ∀ t, cteScore N D Qp Rp lam t ≤ cteScore N D Qp Rp lam 0 := by
    intro t
    rw [hscore t, hscore 0, hsum0]
    exact div_le_div_of_nonneg_right
      (Finset.sum_le_sum fun f _ =>
        mul_le_of_le_one_right (hρ0 f) (cexp_re_le_one N (f * t)))
      (Nat.cast_nonneg N)
  have hNe : N ≠ 0 := Nat.pos_iff_ne_zero.mp (pow_pos (by norm_num) _)
  obtain ⟨n, hn⟩ := Nat.exists_eq_succ_of_ne_zero hNe
  have hdecomp : ∀ f : Nat → ℝ,
      (List.range N).map f = f 0 :: (List.range n).map fun j => f (j + 1) := by
    intro f
    rw [hn, List.range_succ_eq_map, List.map_cons, List.map_map]
    rfl
  refine ⟨cteScores N D Qp Rp lam, hok, ?_, ?_, ?_⟩
  · rw [cteScores]
    simp only [ne_eq, List.map_eq_nil_iff, List.range_eq_nil]
    exact hNe
  · intro x hx
    rw [cteScores] at hx
    obtain ⟨t, _, rfl⟩ := List.mem_map.mp hx
    have hhead : (cteScores N D Qp Rp lam).headD 0 = cteScore N D Qp Rp lam 0 := by
      rw [cteScores, hdecomp, List.headD_cons]
    rw [hhead]
    exact hge t
  · rw [cteScores, hdecomp]
    simp only [argmaxIdx]
    apply argmaxAux_of_le
    intro y hy
    obtain ⟨j, _, rfl⟩ := List.mem_map.mp hy
    exact hge _

/-- Witness for C6 on a single-frame all-zero matrix with lambda 1e-3. -/
theorem autocorrelation_peak_at_zero_witness :
    ∃ s, compute_cte_correlation 1 1 1 1 (fun _ _ => 0) (fun _ _ => 0) (1/1000)
        = .ok s
      ∧ s ≠ []
      ∧ (∀ x ∈ s, x ≤ s.headD 0)
      ∧ argmaxIdx s = 0 :=
  autocorrelation_peak_at_zero 1 1 (fun _ _ => 0) (1/1000)
    (by decide) (by norm_num)

/-! ### Twiddle-factor arithmetic at N = 4 (towards C10) -/

theorem cexp_add (N a b : Nat) : cexp N (a + b) = cexp N a * cexp N b := by
  rw [cexp, cexp, cexp, ← Complex.exp_add]
  congr 1
  push_cast
  ring

theorem cexp_four_one : cexp 4 1 = Complex.I := by
  rw [cexp]
  rw [show (2 * Real.pi * Complex.I * (1:ℕ) / (4:ℕ) : ℂ)
      = ((Real.pi / 2 : ℝ) : ℂ) * Complex.I from by push_cast; ring]
  rw [Complex.exp_mul_I, ← Complex.ofReal_cos, ← Complex.ofReal_sin,
    Real.cos_pi_div_two, Real.sin_pi_div_two]
  simp

theorem cexp_four_pow (k : Nat) : cexp 4 k = Complex.I ^ k := by
  induction k with
  | zero => simpa using cexp_zero 4
  | succ k ih => rw [cexp_add, ih, cexp_four_one, pow_succ]

theorem I_pow_val (k : Nat) : Complex.I ^ k =
    if k % 4 = 0 then 1
    else if k % 4 = 1 then Complex.I
    else if k % 4 = 2 then -1
    else -Complex.I := by
  have h4 : Complex.I ^ (4:ℕ) = 1 := by
    rw [show (4:ℕ) = 2 + 2 from rfl, pow_add, Complex.I_sq]
    norm_num
  conv_lhs => rw [← Nat.div_add_mod k 4, pow_add, pow_mul, h4, one_pow, one_mul]
  have hlt : k % 4 < 4 := Nat.mod_lt _ (by norm_num)
  set r := k % 4 with hr
  interval_cases r
  · simp
  · simp
  · simp [Complex.I_sq]
  · simp [pow_succ, Complex.I_sq]

/-! ### The unsafe offset-to-frame mapping (towards C10) -/

/-- The query descriptor matrix of the C10 scenario: three frames, one
descriptor dimension, an impulse at sampled frame 2. -/
def qC10 : Nat → Nat → ℝ := fun t _ => if t = 2 then 1 else 0

/-- The reference descriptor matrix of the C10 scenario: a single frame
with unit descriptor. -/
def rC10 : Nat → Nat → ℝ := fun _ _ => 1

theorem cteScores_C10 (lam : ℝ) :
    cteScores 4 1 (padMatrix 3 qC10) (padMatrix 1 (broadcastRef 1 rC10)) lam
      = [0, 0, 1 / (1 + lam), 0] := by
  have hQ : ∀ f, dftCol 4 (padMatrix 3 qC10) f 0
      = starRingEnd ℂ (Complex.I ^ (f * 2)) := by
    intro f
    rw [dftCol, Finset.sum_range_succ, Finset.sum_range_succ,
      Finset.sum_range_succ, Finset.sum_range_one]
    simp [padMatrix, qC10, cexp_four_pow]
  have hR : ∀ f, dftCol 4 (padMatrix 1 (broadcastRef 1 rC10)) f 0 = 1 := by
    intro f
    rw [dftCol, Finset.sum_range_succ, Finset.sum_range_succ,
      Finset.sum_range_succ, Finset.sum_range_one]
    simp [padMatrix, broadcastRef, rC10, cexp_zero]
  have hnum : ∀ f,
      cteNum 4 1 (padMatrix 3 qC10) (padMatrix 1 (broadcastRef 1 rC10)) f
        = Complex.I ^ (f * 2) := by
    intro f
    rw [cteNum, Finset.sum_range_one, hQ, hR]
    simp
  have hden : ∀ f, cteDen 4 1 (padMatrix 3 qC10) f = 1 := by
    intro f
    rw [cteDen, Finset.sum_range_one, hQ]
    simp [Complex.normSq_conj, map_pow, Complex.normSq_I]
  have hterm : ∀ f t,
      cteNum 4 1 (padMatrix 3 qC10) (padMatrix 1 (broadcastRef 1 rC10)) f
          / ((cteDen 4 1 (padMatrix 3 qC10) f : ℝ) + (lam : ℂ)) * cexp 4 (f * t)
        = Complex.I ^ (f * 2 + f * t) / ((1:ℂ) + (lam : ℂ)) := by
    intro f t
    rw [hnum, hden, cexp_four_pow, pow_add]
    push_cast
    ring
  have hscore : ∀ t,
      cteScore 4 1 (padMatrix 3 qC10) (padMatrix 1 (broadcastRef 1 rC10)) lam t
        = ((Complex.I ^ (0 * 2 + 0 * t) + Complex.I ^ (1 * 2 + 1 * t)
            + Complex.I ^ (2 * 2 + 2 * t) + Complex.I ^ (3 * 2 + 3 * t))
            / ((1:ℂ) + (lam : ℂ)) / 4).re := by
    intro t
    rw [cteScore, Finset.sum_range_succ, Finset.sum_range_succ,
      Finset.sum_range_succ, Finset.sum_range_one,
      hterm, hterm, hterm, hterm]
    congr 1
    ring
  have hs0 : cteScore 4 1 (padMatrix 3 qC10) (padMatrix 1 (broadcastRef 1 rC10)) lam 0
      = 0 := by
    rw [hscore 0]
    have h : (Complex.I ^ (0 * 2 + 0 * 0) + Complex.I ^ (1 * 2 + 1 * 0)
        + Complex.I ^ (2 * 2 + 2 * 0) + Complex.I ^ (3 * 2 + 3 * 0) : ℂ) = 0 := by
      norm_num [I_pow_val]
    rw [h]
    norm_num
  have hs1 : cteScore 4 1 (padMatrix 3 qC10) (padMatrix 1 (broadcastRef 1 rC10)) lam 1
      = 0 := by
    rw [hscore 1]
    have h : (Complex.I ^ (0 * 2 + 0 * 1) + Complex.I ^ (1 * 2 + 1 * 1)
        + Complex.I ^ (2 * 2 + 2 * 1) + Complex.I ^ (3 * 2 + 3 * 1) : ℂ) = 0 := by
      norm_num [I_pow_val]
    rw [h]
    norm_num
  have hs2 : cteScore 4 1 (padMatrix 3 qC10) (padMatrix 1 (broadcastRef 1 rC10)) lam 2
      = 1 / (1 + lam) := by
    rw [hscore 2]
    have h : (Complex.I ^ (0 * 2 + 0 * 2) + Complex.I ^ (1 * 2 + 1 * 2)
        + Complex.I ^ (2 * 2 + 2 * 2) + Complex.I ^ (3 * 2 + 3 * 2) : ℂ) = 4 := by
      norm_num [I_pow_val]
    rw [h]
    rw [show ((4:ℂ) / ((1:ℂ) + (lam : ℂ)) / 4) = (((1 / (1 + lam) : ℝ)) : ℂ) from by
      push_cast; ring]
    rw [Complex.ofReal_re]
  have hs3 : cteScore 4 1 (padMatrix 3 qC10) (padMatrix 1 (broadcastRef 1 rC10)) lam 3
      = 0 := by
    rw [hscore 3]
    have h : (Complex.I ^ (0 * 2 + 0 * 3) + Complex.I ^ (1 * 2 + 1 * 3)
        + Complex.I ^ (2 * 2 + 2 * 3) + Complex.I ^ (3 * 2 + 3 * 3) : ℂ) = 0 := by
      norm_num [I_pow_val]
    rw [h]
    norm_num
  rw [cteScores, show List.range 4 = [0, 1, 2, 3] from rfl]
  simp only [List.map_cons, List.map_nil]
  rw [hs0, hs1, hs2, hs3]

theorem argmaxAux_le (xs : List ℝ) :
    ∀ i bi bv, bi ≤ i → argmaxAux xs i bi bv ≤ i + xs.length := by
  induction xs with
  | nil =>
    intro i bi bv h
    rw [argmaxAux]
    omega
  | cons x xs ih =>
    intro i bi bv h
    rw [argmaxAux]
    by_cases hc : bv < x
    · rw [if_pos hc]
      have := ih (i + 1) i x (Nat.le_succ i)
      simp only [List.length_cons]
      omega
    · rw [if_neg hc]
      have := ih (i + 1) bi bv (h.trans (Nat.le_succ i))
      simp only [List.length_cons]
      omega

theorem argmaxIdx_le_length (l : List ℝ) : argmaxIdx l ≤ l.length := by
  cases l with
  | nil => rw [argmaxIdx]; simp
  | cons x xs =>
    rw [argmaxIdx]
    have := argmaxAux_le xs 1 0 x (by omega)
    simp only [List.length_cons]
    omega

theorem mainLoopOffset_le_half (scores : List ℝ) :
    mainLoopOffset scores ≤ (scores.length : ℤ) / 2 := by
  have hb : (argmaxIdx scores : ℤ) ≤ (scores.length : ℤ) := by
    exact_mod_cast argmaxIdx_le_length scores
  rw [mainLoopOffset]
  by_cases hc : ((scores.length : ℤ)) / 2 < (argmaxIdx scores : ℤ)
  · rw [if_pos hc]
    omega
  · rw [if_neg hc]
    omega

/-- Claim C10: the clamped offset is bounded only by N/2, which can reach
or exceed the reference's sampled-frame count when the query is longer
than the reference, and then r_map[delta] is out of range: with a
3-frame query and a 1-frame reference (N = 4), the scores peak at offset
2, the clamp keeps it, and the mapping lookup fails instead of producing
a result. -/
theorem main_loop_offset_out_of_range :
    (∀ scores : List ℝ, mainLoopOffset scores ≤ (scores.length : ℤ) / 2)
    ∧ ∃ s, compute_cte_correlation 3 1 1 1 qC10 rC10 (1/1000) = .ok s
      ∧ s.length = 4
      ∧ mainLoopOffset s = 2
      ∧ (orig_indices 1 1).length = 1
      ∧ (orig_indices 1 1).length ≤ (mainLoopOffset s).toNat
      ∧ mainLoopOrigFrame s (orig_indices 1 1) = none := by
  refine ⟨mainLoopOffset_le_half, ?_⟩
  have hclog : (2 : Nat) ^ Nat.clog 2 (max 3 1) = 4 := by
    have h1 : Nat.clog 2 3 ≤ 2 :=
      (Nat.le_pow_iff_clog_le one_lt_two).mp (by norm_num)
    have h2 : ¬ Nat.clog 2 3 ≤ 1 := fun hcl =>
      absurd ((Nat.le_pow_iff_clog_le one_lt_two).mpr hcl) (by norm_num)
    have h3 : Nat.clog 2 (max 3 1) = 2 := by
      rw [show max 3 1 = 3 from rfl]
      omega
    rw [h3]
    norm_num
  have hok : compute_cte_correlation 3 1 1 1 qC10 rC10 (1/1000)
      = .ok [0, 0, 1 / (1 + 1/1000), 0] := by
    rw [compute_cte_correlation, if_neg (by decide), if_pos (Or.inl rfl),
      hclog, cteScores_C10]
  have hargmax : argmaxIdx [(0:ℝ), 0, 1 / (1 + 1/1000), 0] = 2 := by
    simp only [argmaxIdx, argmaxAux]
    rw [if_neg (by norm_num), if_pos (by norm_num), if_neg (by norm_num)]
  have hoff : mainLoopOffset [(0:ℝ), 0, 1 / (1 + 1/1000), 0] = 2 := by
    rw [mainLoopOffset]
    simp only [hargmax, List.length_cons, List.length_nil]
    norm_num
  refine ⟨[0, 0, 1 / (1 + 1/1000), 0], hok, by norm_num, hoff, rfl, ?_, ?_⟩
  · rw [hoff]
    decide
  · rw [mainLoopOrigFrame, hoff]
    rfl

end CVProj
